import Mathlib

/-!
Verification of the timing-synchronization and batched-assembly engine of the
Video-caption-Creator repository, against its natural-language specification.

The definitions below are a shallow embedding of the Python sources:

* `src/processors/video_processor.py` — the Duration Rescaler
  (`VideoProcessor.calculate_adjusted_durations`), the batch result collection
  of `process_images`, the Segment Assembler (`_get_ordered_segments`) and the
  audio/video sync reconciliation (`sync_audio_with_video`).
* `src/processors/sub2audio.py` — the Timeline Model (`_extract_data_srt`,
  `_convert_time_to_intmil`, `_validate_inputs`), the Tempo Resolver
  (`_process_timing`, `_adjust_tempo`), the Overflow Shifter (`_shifter`,
  `_right_shift`, `_left_shift`, `_interpose_shift`, `_parse_shift_limit`)
  and the Audio Track Assembler (`_build_final_audio`).
* `src/processors/srt_parser.py` — `SRTParser.parse_entry`.

Python floats are modelled as rationals (ℚ), Python ints as ℤ/ℕ; calls into
the external encoder (ffmpeg) and TTS engine are modelled by the values the
code hands to them; filesystem side effects are elided.  Fallible code is
modelled with `Option`/`Except`.
-/

namespace VCC

/-! ## Duration Rescaler — `VideoProcessor.calculate_adjusted_durations`
(src/processors/video_processor.py lines 28-67)

Frames are modelled by their `duration` field only: the source copies each
frame dict and rewrites just `duration`, so the other keys play no role.
Python `round(x, 3)` is modelled as rounding `x * 1000` to the nearest
integer; the half-way tie-breaking convention is irrelevant to every
statement proved below. -/

/-- Model of Python `round(x, 3)`: round to 3 decimal places. -/
def round3 (q : ℚ) : ℚ := (round (q * 1000) : ℤ) / 1000

/-- The `min_duration = 0.033` floor of `calculate_adjusted_durations`
(about 1 frame at 30 fps). -/
def min_duration : ℚ := 33 / 1000

/-- The per-frame loop of `calculate_adjusted_durations`: each frame gets
`max(round(raw * scale, 3), min_duration)`, except the last frame, whose
duration is recomputed as `round(audio_duration - accumulated, 3)`.
`acc` is the running `accumulated_duration`. -/
def adjust_loop (scale audio_duration : ℚ) : List ℚ → ℚ → List ℚ
  | [], _ => []
  | [_], acc => [round3 (audio_duration - acc)]
  | d :: d2 :: rest, acc =>
    let dur := max (round3 (d * scale)) min_duration
    dur :: adjust_loop scale audio_duration (d2 :: rest) (acc + dur)

/-- `VideoProcessor.calculate_adjusted_durations`: rescale the frame
durations so that their total matches `audio_duration`.  Returns the input
unchanged when the raw total is not positive. -/
def calculate_adjusted_durations (frames : List ℚ) (audio_duration : ℚ) : List ℚ :=
  let total_frame_duration := frames.sum
  if total_frame_duration ≤ 0 then frames
  else adjust_loop (audio_duration / total_frame_duration) audio_duration frames 0

theorem round3_close (q : ℚ) : |round3 q - q| ≤ 1 / 2000 := by
  have h := abs_sub_round (q * 1000)
  rw [abs_sub_comm] at h
  have h1000 : |round3 q - q| = |(round (q * 1000) : ℚ) - q * 1000| / 1000 := by
    rw [round3, ← abs_of_pos (show (0:ℚ) < 1000 by norm_num), ← abs_div]
    congr 1
    field_simp
    ring
  rw [h1000]
  calc |(round (q * 1000) : ℚ) - q * 1000| / 1000 ≤ (1 / 2) / 1000 := by
        apply div_le_div_of_nonneg_right h (by norm_num)
        |>.trans_eq rfl
    _ = 1 / 2000 := by norm_num

theorem adjust_loop_length (scale T : ℚ) :
    ∀ (l : List ℚ) (acc : ℚ), (adjust_loop scale T l acc).length = l.length
  | [], _ => rfl
  | [_], _ => rfl
  | _ :: d2 :: rest, acc => by
    simp only [adjust_loop, List.length_cons]
    rw [adjust_loop_length scale T (d2 :: rest)]
    simp

theorem adjust_loop_sum (scale T : ℚ) :
    ∀ (l : List ℚ) (acc : ℚ), l ≠ [] →
      ∃ a, (adjust_loop scale T l acc).sum = a - acc + round3 (T - a)
  | [], _, h => absurd rfl h
  | [_], acc, _ => ⟨acc, by simp [adjust_loop]⟩
  | d :: d2 :: rest, acc, _ => by
    obtain ⟨a, ha⟩ :=
      adjust_loop_sum scale T (d2 :: rest) (acc + max (round3 (d * scale)) min_duration)
        (by simp)
    refine ⟨a, ?_⟩
    simp only [adjust_loop, List.sum_cons, ha]
    ring

theorem adjust_loop_dropLast (scale T : ℚ) :
    ∀ (l : List ℚ) (acc : ℚ), ∀ d ∈ (adjust_loop scale T l acc).dropLast, min_duration ≤ d
  | [], _ => by simp [adjust_loop]
  | [_], _ => by simp [adjust_loop]
  | d :: d2 :: rest, acc => by
    intro x hx
    have hcons : ∃ y ys, adjust_loop scale T (d2 :: rest) (acc + max (round3 (d * scale)) min_duration) = y :: ys := by
      match rest with
      | [] => exact ⟨_, _, rfl⟩
      | r :: rs => exact ⟨_, _, rfl⟩
    obtain ⟨y, ys, hys⟩ := hcons
    simp only [adjust_loop, hys, List.dropLast_cons₂, List.mem_cons] at hx
    rcases hx with h | h
    · rw [h]; exact le_max_right _ _
    · have := adjust_loop_dropLast scale T (d2 :: rest)
        (acc + max (round3 (d * scale)) min_duration) x
      rw [hys] at this
      exact this h

/-- C1 counterexample: for `frames = [10, 0.001]` and target `T = 1`, the
rescaler outputs durations `[1, 0]`: the last frame receives duration `0`,
below the `0.033` floor, so the claim that every output duration is at
least the floor is false. -/
theorem c1_counterexample :
    calculate_adjusted_durations [10, 1/1000] 1 = [1, 0] ∧ ¬ min_duration ≤ (0 : ℚ) := by
  constructor
  · show calculate_adjusted_durations [10, 1/1000] 1 = [1, 0]
    norm_num [calculate_adjusted_durations, adjust_loop, round3, min_duration, round_eq]
  · norm_num [min_duration]

/-- C1 amended: for every frame sequence whose raw durations sum to a
positive value and every target `T`, the output durations sum to `T` within
1 ms (in fact within 0.5 ms), and every output duration except possibly the
last is at least the `0.033` floor; the last frame, being recomputed as
`round(T - accumulated, 3)`, may fall below the floor. -/
theorem c1_rescaler_amended (frames : List ℚ) (T : ℚ) (hpos : 0 < frames.sum) :
    |(calculate_adjusted_durations frames T).sum - T| ≤ 1 / 1000 ∧
    ∀ d ∈ (calculate_adjusted_durations frames T).dropLast, min_duration ≤ d := by
  have hne : frames ≠ [] := by
    intro h; rw [h] at hpos; simp at hpos
  have hif : calculate_adjusted_durations frames T
      = adjust_loop (T / frames.sum) T frames 0 := by
    rw [calculate_adjusted_durations]
    simp only [not_le.mpr hpos, if_false]
  constructor
  · obtain ⟨a, ha⟩ := adjust_loop_sum (T / frames.sum) T frames 0 hne
    rw [hif, ha]
    have h := round3_close (T - a)
    have : a - 0 + round3 (T - a) - T = round3 (T - a) - (T - a) := by ring
    rw [this]
    exact h.trans (by norm_num)
  · rw [hif]
    exact adjust_loop_dropLast _ _ frames 0

/-- C1 witness: the amended theorem applied at `frames = [1, 1]`, `T = 2`. -/
theorem c1_rescaler_amended_witness :
    0 < ([1, 1] : List ℚ).sum ∧
    (|(calculate_adjusted_durations [1, 1] 2).sum - 2| ≤ 1 / 1000 ∧
     ∀ d ∈ (calculate_adjusted_durations [1, 1] 2).dropLast, min_duration ≤ d) :=
  ⟨by norm_num, c1_rescaler_amended [1, 1] 2 (by norm_num)⟩

/-! ## Batch Renderer result collection and Segment Assembler
(src/processors/video_processor.py lines 69-122)

`process_images` pre-allocates `segments = [None] * len(batches)` and, as
each worker future completes (in a non-deterministic order), stores a
successful batch result at its batch index: `segments[batch_idx] = result`
(failed batches leave `None`).  `_get_ordered_segments` then drops the
`None` entries and sorts the rest by the batch index embedded in each
segment file name (`batch_{batch_idx:04d}.mp4`, recovered by
`int(basename.split('_')[1].split('.')[0])`).  A segment is modelled by
that embedded batch index; completion order is modelled by letting the
result list be an arbitrary permutation of the per-batch outcomes. -/

/-- A rendered video segment, identified by the batch index embedded in its
file name by `process_batch`. -/
structure VideoSegment where
  batchIdx : ℕ
deriving DecidableEq

/-- One completed future: `segments[r.1] = r.2` when the result is non-nil,
otherwise the slot is left as it was. -/
def collect_step (segments : List (Option VideoSegment)) (r : ℕ × Option VideoSegment) :
    List (Option VideoSegment) :=
  match r.2 with
  | some s => segments.set r.1 (some s)
  | none => segments

/-- The shared `segments` list of `process_images` after all futures have
completed, starting from `[None] * n`. -/
def collect_results (n : ℕ) (results : List (ℕ × Option VideoSegment)) :
    List (Option VideoSegment) :=
  results.foldl collect_step (List.replicate n none)

/-- `VideoProcessor._get_ordered_segments`: remove failed (nil) batches and
sort by the batch index recovered from the segment file name. -/
def get_ordered_segments (segments : List (Option VideoSegment)) : List VideoSegment :=
  (segments.filterMap id).mergeSort (fun a b => a.batchIdx ≤ b.batchIdx)

theorem collect_step_comm (x y : ℕ × Option VideoSegment) (hxy : x.1 ≠ y.1)
    (z : List (Option VideoSegment)) :
    collect_step (collect_step z x) y = collect_step (collect_step z y) x := by
  obtain ⟨i, ox⟩ := x
  obtain ⟨j, oy⟩ := y
  cases ox <;> cases oy <;> simp only [collect_step]
  exact List.set_comm _ _ z hxy

theorem collect_step_length (z : List (Option VideoSegment)) (r : ℕ × Option VideoSegment) :
    (collect_step z r).length = z.length := by
  obtain ⟨i, ox⟩ := r
  cases ox <;> simp [collect_step]

theorem collect_foldl_length (acc : List (Option VideoSegment))
    (l : List (ℕ × Option VideoSegment)) :
    (List.foldl collect_step acc l).length = acc.length := by
  induction l generalizing acc with
  | nil => rfl
  | cons r rest ih => rw [List.foldl_cons, ih, collect_step_length]

theorem collect_foldl_canonical_getElem (n : ℕ) (f : ℕ → Option VideoSegment) :
    ∀ (k : ℕ) (j : ℕ),
      (List.foldl collect_step (List.replicate n none)
          ((List.range k).map (fun i => (i, f i))))[j]? =
        if j < min k n then some (f j) else (List.replicate (α := Option VideoSegment) n none)[j]? := by
  intro k
  induction k with
  | zero => intro j; simp
  | succ k ih =>
    intro j
    rw [List.range_succ, List.map_append, List.foldl_append]
    simp only [List.map_cons, List.map_nil, List.foldl_cons, List.foldl_nil]
    rcases hfk : f k with _ | v
    · simp only [collect_step]
      rw [ih j]
      by_cases hj : j = k
      · subst hj
        by_cases hn : j < n
        · simp [Nat.lt_min, hn, hfk, List.getElem?_replicate]
        · simp [Nat.lt_min, hn]
      · have : j < min (k + 1) n ↔ j < min k n := by
          rw [Nat.lt_min, Nat.lt_min]
          constructor
          · rintro ⟨h1, h2⟩
            exact ⟨lt_of_le_of_ne (Nat.lt_succ_iff.mp h1) hj, h2⟩
          · rintro ⟨h1, h2⟩
            exact ⟨h1.trans (Nat.lt_succ_self k), h2⟩
        exact if_congr this.symm rfl rfl
    · simp only [collect_step]
      have hlen : (List.foldl collect_step (List.replicate (α := Option VideoSegment) n none)
          ((List.range k).map (fun i => (i, f i)))).length = n := by
        rw [collect_foldl_length, List.length_replicate]
      rw [List.getElem?_set]
      by_cases hj : k = j
      · subst hj
        rw [hlen]
        by_cases hn : k < n
        · simp [Nat.lt_min, hn, hfk]
        · simp [Nat.lt_min, hn, List.getElem?_replicate]
      · simp only [hj, if_false]
        rw [ih j]
        have : j < min (k + 1) n ↔ j < min k n := by
          rw [Nat.lt_min, Nat.lt_min]
          constructor
          · rintro ⟨h1, h2⟩
            exact ⟨lt_of_le_of_ne (Nat.lt_succ_iff.mp h1) (fun h => hj h.symm), h2⟩
          · rintro ⟨h1, h2⟩
            exact ⟨h1.trans (Nat.lt_succ_self k), h2⟩
        exact if_congr this.symm rfl rfl

theorem collect_results_canonical (n : ℕ) (f : ℕ → Option VideoSegment) :
    collect_results n ((List.range n).map (fun i => (i, f i))) = (List.range n).map f := by
  apply List.ext_getElem?
  intro j
  rw [collect_results, collect_foldl_canonical_getElem n f n j]
  by_cases hj : j < n
  · simp [Nat.lt_min, hj, List.getElem?_range hj]
  · have h1 : (List.replicate (α := Option VideoSegment) n none)[j]? = none :=
      List.getElem?_eq_none (by simpa using hj)
    have h2 : ((List.range n).map f)[j]? = none :=
      List.getElem?_eq_none (by simpa using hj)
    rw [h1, h2, Nat.min_self, if_neg hj]

theorem collect_results_perm_invariant (n : ℕ) (f : ℕ → Option VideoSegment)
    (results : List (ℕ × Option VideoSegment))
    (hperm : results.Perm ((List.range n).map (fun i => (i, f i)))) :
    collect_results n results = (List.range n).map f := by
  have hnodup : (results.map Prod.fst).Nodup := by
    have h1 : (results.map Prod.fst).Perm
        ((((List.range n).map (fun i => (i, f i))).map Prod.fst)) := hperm.map Prod.fst
    rw [List.map_map] at h1
    have h2 : ((List.range n).map (Prod.fst ∘ fun i => (i, f i))) = List.range n := by
      have hfn : (Prod.fst ∘ fun i => (i, f i)) = (id : ℕ → ℕ) := rfl
      rw [hfn, List.map_id]
    rw [h2] at h1
    exact h1.nodup_iff.mpr (List.nodup_range n)
  have hcomm : ∀ x ∈ results, ∀ y ∈ results, ∀ (z : List (Option VideoSegment)),
      collect_step (collect_step z x) y = collect_step (collect_step z y) x := by
    intro x hx y hy z
    by_cases hxy : x.1 = y.1
    · have : x = y := List.inj_on_of_nodup_map hnodup hx hy hxy
      rw [this]
    · exact collect_step_comm x y hxy z
  rw [collect_results, hperm.foldl_eq' hcomm, ← collect_results, collect_results_canonical]

theorem range_filterMap_pairwise (n : ℕ) (f : ℕ → Option VideoSegment)
    (hidx : ∀ i s, i < n → f i = some s → s.batchIdx = i) :
    List.Pairwise (fun a b => a.batchIdx < b.batchIdx) ((List.range n).filterMap f) := by
  have hpw : List.Pairwise (fun a b => a < b ∧ a < n ∧ b < n) (List.range n) :=
    (List.pairwise_lt_range n).and
      ((List.pairwise_lt_range n).imp_of_mem (fun ha hb _ => ⟨List.mem_range.mp ha, List.mem_range.mp hb⟩))
  refine List.Pairwise.filterMap f ?_ hpw
  rintro a a' ⟨hlt, ha, ha'⟩ b hb b' hb'
  rw [Option.mem_def] at hb hb'
  rw [hidx a b ha hb, hidx a' b' ha' hb']
  exact hlt

/-- C4: for every set of batch results with at least one success, whatever
order the workers completed in (any permutation of the per-batch outcomes),
the final segment list of `_get_ordered_segments` is exactly the canonical
list of successful segments in batch order: it is a permutation of the
non-nil results, strictly increasing in batch index, and non-empty. -/
theorem c4_segment_assembler (n : ℕ) (f : ℕ → Option VideoSegment)
    (results : List (ℕ × Option VideoSegment))
    (hperm : results.Perm ((List.range n).map (fun i => (i, f i))))
    (hidx : ∀ i s, i < n → f i = some s → s.batchIdx = i)
    (hsucc : ∃ i, i < n ∧ f i ≠ none) :
    get_ordered_segments (collect_results n results) = (List.range n).filterMap f ∧
    (get_ordered_segments (collect_results n results)).Perm (results.filterMap Prod.snd) ∧
    List.Pairwise (fun a b => a.batchIdx < b.batchIdx)
      (get_ordered_segments (collect_results n results)) ∧
    get_ordered_segments (collect_results n results) ≠ [] := by
  have hpw := range_filterMap_pairwise n f hidx
  have heq : get_ordered_segments (collect_results n results) = (List.range n).filterMap f := by
    rw [get_ordered_segments, collect_results_perm_invariant n f results hperm,
      List.filterMap_map, Function.id_comp]
    exact List.mergeSort_of_sorted
      (hpw.imp (fun h => by simpa using le_of_lt h))
  refine ⟨heq, ?_, heq ▸ hpw, ?_⟩
  · rw [heq]
    have h1 : (results.filterMap Prod.snd).Perm
        (((List.range n).map (fun i => (i, f i))).filterMap Prod.snd) :=
      hperm.filterMap Prod.snd
    rw [List.filterMap_map] at h1
    exact (h1.symm : _)
  · obtain ⟨i, hi, hf⟩ := hsucc
    rw [heq]
    intro hnil
    rcases hs : f i with _ | s
    · exact hf hs
    have : s ∈ (List.range n).filterMap f :=
      List.mem_filterMap.mpr ⟨i, List.mem_range.mpr hi, hs⟩
    rw [hnil] at this
    exact absurd this (List.not_mem_nil s)

/-- Concrete outcome function used by the C4 witness: both of two batches
succeed. -/
def c4_sample_outcome (i : ℕ) : Option VideoSegment :=
  if i = 0 then some ⟨0⟩ else if i = 1 then some ⟨1⟩ else none

/-- C4 witness: the theorem applied to two batches whose futures complete
in reverse order. -/
theorem c4_segment_assembler_witness :
    get_ordered_segments (collect_results 2 [(1, c4_sample_outcome 1), (0, c4_sample_outcome 0)])
        = (List.range 2).filterMap c4_sample_outcome ∧
    (get_ordered_segments (collect_results 2 [(1, c4_sample_outcome 1), (0, c4_sample_outcome 0)])).Perm
        (([(1, c4_sample_outcome 1), (0, c4_sample_outcome 0)] :
          List (ℕ × Option VideoSegment)).filterMap Prod.snd) ∧
    List.Pairwise (fun a b => a.batchIdx < b.batchIdx)
      (get_ordered_segments (collect_results 2 [(1, c4_sample_outcome 1), (0, c4_sample_outcome 0)])) ∧
    get_ordered_segments (collect_results 2 [(1, c4_sample_outcome 1), (0, c4_sample_outcome 0)]) ≠ [] :=
  c4_segment_assembler 2 c4_sample_outcome _
    (by decide)
    (by
      intro i s hi hs
      interval_cases i <;> (simp [c4_sample_outcome] at hs; rw [← hs]))
    ⟨0, by norm_num, by simp [c4_sample_outcome]⟩

/-! ## Audio/video sync reconciliation — `VideoProcessor.sync_audio_with_video`
(src/processors/video_processor.py lines 318-387)

The function probes both durations (external calls, modelled as the two ℚ
inputs) and decides what to do: within a 0.1 s tolerance the video file is
just renamed to the output (pass-through); otherwise the audio stream is
run through the atempo filter with factor video_duration / audio_duration
while the video stream is copied into the concat unchanged.  The action
type also has a stretch-video constructor to express that the code never
retimes the video. -/

/-- The reconciliation action `sync_audio_with_video` hands to the encoder. -/
inductive SyncAction where
  | passThrough : SyncAction
  | stretchAudio (speed_factor : ℚ) : SyncAction
  | stretchVideo (speed_factor : ℚ) : SyncAction
deriving DecidableEq

/-- `VideoProcessor.sync_audio_with_video`, reduced to its decision on the
probed durations (in seconds). -/
def sync_audio_with_video (video_duration audio_duration : ℚ) : SyncAction :=
  if |video_duration - audio_duration| < 1/10 then SyncAction.passThrough
  else SyncAction.stretchAudio (video_duration / audio_duration)

/-- C5: when the probed durations differ by less than 100 ms the video is
passed through unchanged; otherwise the audio — never the video — is
time-stretched by the factor video_duration / audio_duration. -/
theorem c5_sync_reconciliation (video_duration audio_duration : ℚ) :
    (|video_duration - audio_duration| < 1/10 →
      sync_audio_with_video video_duration audio_duration = SyncAction.passThrough) ∧
    (¬ |video_duration - audio_duration| < 1/10 →
      sync_audio_with_video video_duration audio_duration
        = SyncAction.stretchAudio (video_duration / audio_duration)) ∧
    (∀ s, sync_audio_with_video video_duration audio_duration ≠ SyncAction.stretchVideo s) := by
  refine ⟨fun h => ?_, fun h => ?_, fun s => ?_⟩
  · rw [sync_audio_with_video, if_pos h]
  · rw [sync_audio_with_video, if_neg h]
  · rw [sync_audio_with_video]
    split <;> intro h <;> exact SyncAction.noConfusion h

/-- C5 witness: the theorem applied at video 10 s / audio 5 s (stretch) and
at video 10 s / audio 10 s (pass-through). -/
theorem c5_sync_reconciliation_witness :
    sync_audio_with_video 10 5 = SyncAction.stretchAudio (10 / 5) ∧
    sync_audio_with_video 10 10 = SyncAction.passThrough :=
  ⟨(c5_sync_reconciliation 10 5).2.1 (by norm_num),
   (c5_sync_reconciliation 10 10).1 (by norm_num)⟩

/-! ## sub2audio pipeline entries

Entries of the synthesis pipeline (`SubToAudio.convert_to_audio` working
data).  Each dict in the Python code carries `start_time`, `end_time`,
`sub_time` (all set by `_extract_data_srt`) and `audio_length` (set by
`_generate_audio_segments`); `entry_number`, `text` and `audio_name` are
only used for logging/file naming and are elided.  Times are in
milliseconds; they start out integral but become floats under the
interpose shift, so they are modelled as ℚ throughout. -/

/-- One working entry of the sub2audio pipeline. -/
structure SegEntry where
  start_time : ℚ
  end_time : ℚ
  sub_time : ℚ
  audio_length : ℚ
deriving DecidableEq

/-! ## Tempo Resolver — `SubToAudio._process_timing` and `_adjust_tempo`
(src/processors/sub2audio.py lines 368-485) -/

/-- The three non-trivial `tempo_mode` values accepted by
`_validate_inputs` (`None` makes `_process_timing` return immediately). -/
inductive TempoMode where
  | all : TempoMode
  | overflow : TempoMode
  | precise : TempoMode
deriving DecidableEq

/-- The `target_time` computed by `_process_timing` for the overflow and
precise modes: time until the next subtitle starts (with the
`sub_end + (sub_end - sub_start)` estimate for the last entry) for
overflow, own duration for precise, floored at 1 ms.  (Unused for the
`all` mode, which bypasses the target computation.) -/
def tempo_target_time (tempo_mode : TempoMode) (e : SegEntry) (next : Option SegEntry) : ℚ :=
  match tempo_mode with
  | .overflow =>
    let next_start_time :=
      match next with
      | some nxt => nxt.start_time
      | none => e.end_time + (e.end_time - e.start_time)
    max 1 (next_start_time - e.start_time)
  | _ => max 1 (e.end_time - e.start_time)

/-- The `target_speed` `_process_timing` resolves for one entry: the
uniform `tempo_speed` in `all` mode; otherwise `audio_length / target_time`
when the segment overflows its target, clamped to `tempo_limit` when that
is configured and exceeded, and `1.0` when there is no overflow. -/
def entry_target_speed (tempo_mode : TempoMode) (tempo_speed tempo_limit : Option ℚ)
    (e : SegEntry) (next : Option SegEntry) : ℚ :=
  match tempo_mode with
  | .all => tempo_speed.getD 1
  | .overflow | .precise =>
    let target_time := tempo_target_time tempo_mode e next
    if target_time < e.audio_length then
      let calculated_speed := e.audio_length / target_time
      match tempo_limit with
      | some limit => if limit < calculated_speed then limit else calculated_speed
      | none => calculated_speed
    else 1

/-- The list of per-entry target speeds of a `_process_timing` run, in
order.  Entries with `audio_length == 0` are skipped (speed stays 1.0);
the `next` entry used by the overflow mode is the successor in the list. -/
def process_timing_speeds (tempo_mode : TempoMode) (tempo_speed tempo_limit : Option ℚ) :
    List SegEntry → List ℚ
  | [] => []
  | e :: rest =>
    (if e.audio_length = 0 then 1
     else entry_target_speed tempo_mode tempo_speed tempo_limit e rest.head?) ::
      process_timing_speeds tempo_mode tempo_speed tempo_limit rest

theorem entry_target_speed_le_max (tempo_mode : TempoMode)
    (hm : tempo_mode = TempoMode.overflow ∨ tempo_mode = TempoMode.precise)
    (tempo_speed : Option ℚ) (limit : ℚ) (e : SegEntry) (next : Option SegEntry) :
    entry_target_speed tempo_mode tempo_speed (some limit) e next ≤ max 1 limit := by
  have key : ∀ (t : ℚ),
      (if t < e.audio_length then
        if limit < e.audio_length / t then limit else e.audio_length / t
      else 1) ≤ max 1 limit := by
    intro t
    split
    · split
      · exact le_max_right 1 limit
      · exact le_trans (le_of_not_lt (by assumption)) (le_max_right 1 limit)
    · exact le_max_left 1 limit
  rcases hm with hm | hm <;> subst hm <;>
    simpa only [entry_target_speed] using key _

/-- C3 counterexample: with `tempo_mode = 'all'`, `tempo_speed = 3` and
`tempo_limit = 2`, the resolved speed is 3, which exceeds the configured
limit: the uniform mode never consults `tempo_limit`, so the claim that no
applied speed exceeds the limit in any tempo mode is false. -/
theorem c3_counterexample :
    process_timing_speeds TempoMode.all (some 3) (some 2) [⟨0, 1000, 1000, 500⟩] = [3] ∧
    ¬ ((3 : ℚ) ≤ 2) := by
  constructor
  · decide
  · norm_num

/-- C3 amended: in the overflow and precise modes with a configured
`tempo_limit`, every resolved speed is at most `max 1 tempo_limit` (a
non-overflowing segment keeps speed 1.0 even when the limit is below 1),
and a required speed `audio_length / target_time` that exceeds the limit
is clamped down to exactly the limit.  In the `all` mode the uniform
`tempo_speed` is applied without consulting `tempo_limit` (only the
encoder clamp of `_adjust_tempo` applies). -/
theorem c3_tempo_amended (tempo_mode : TempoMode)
    (hm : tempo_mode = TempoMode.overflow ∨ tempo_mode = TempoMode.precise)
    (tempo_speed : Option ℚ) (limit : ℚ) (data : List SegEntry) :
    (∀ s ∈ process_timing_speeds tempo_mode tempo_speed (some limit) data, s ≤ max 1 limit) ∧
    (∀ (e : SegEntry) (next : Option SegEntry),
      tempo_target_time tempo_mode e next < e.audio_length →
      limit < e.audio_length / tempo_target_time tempo_mode e next →
      entry_target_speed tempo_mode tempo_speed (some limit) e next = limit) := by
  constructor
  · intro s hs
    induction data with
    | nil => simp [process_timing_speeds] at hs
    | cons e rest ih =>
      rw [process_timing_speeds] at hs
      rcases List.mem_cons.mp hs with h | h
      · rw [h]
        split
        · exact le_max_left 1 limit
        · exact entry_target_speed_le_max tempo_mode hm tempo_speed limit e rest.head?
      · exact ih h
  · intro e next hover hexceed
    have key : ∀ (t : ℚ), t < e.audio_length → limit < e.audio_length / t →
        (if t < e.audio_length then
          if limit < e.audio_length / t then limit else e.audio_length / t
        else 1) = limit := by
      intro t h1 h2
      rw [if_pos h1, if_pos h2]
    rcases hm with hm | hm <;> subst hm <;>
      simpa only [entry_target_speed] using key _ hover hexceed

/-- C3 witness: the amended theorem applied in overflow mode to a lone
entry of length 5000 ms in a 2000 ms window with limit 2: the required
2.5x speed is clamped to 2. -/
theorem c3_tempo_amended_witness :
    entry_target_speed TempoMode.overflow none (some 2) ⟨0, 1000, 1000, 5000⟩ none = 2 :=
  (c3_tempo_amended TempoMode.overflow (Or.inl rfl) none 2 [⟨0, 1000, 1000, 5000⟩]).2
    ⟨0, 1000, 1000, 5000⟩ none (by norm_num [tempo_target_time])
    (by norm_num [tempo_target_time])

/-- The clamp of `SubToAudio._adjust_tempo`: every speed handed to the
encoder atempo filter is `max(0.5, min(target_speed, 4.0))`. -/
def adjust_tempo_safe_speed (target_speed : ℚ) : ℚ :=
  max (1/2) (min target_speed 4)

/-- C10: every speed factor handed to the encoder tempo-change primitive
lies in the closed interval from 0.5 to 4.0: targets above 4 (including a
uniform `tempo_speed` or a `tempo_limit` above 4) are clamped to 4,
targets below 0.5 are clamped to 0.5, and targets already inside the
interval pass through unchanged. -/
theorem c10_encoder_clamp (target_speed : ℚ) :
    1/2 ≤ adjust_tempo_safe_speed target_speed ∧
    adjust_tempo_safe_speed target_speed ≤ 4 ∧
    (4 < target_speed → adjust_tempo_safe_speed target_speed = 4) ∧
    (target_speed < 1/2 → adjust_tempo_safe_speed target_speed = 1/2) ∧
    (1/2 ≤ target_speed → target_speed ≤ 4 → adjust_tempo_safe_speed target_speed = target_speed) := by
  refine ⟨le_max_left _ _, ?_, fun h => ?_, fun h => ?_, fun h1 h2 => ?_⟩
  · exact max_le (by norm_num) (min_le_right _ _)
  · rw [adjust_tempo_safe_speed, min_eq_right h.le, max_eq_right (by norm_num)]
  · rw [adjust_tempo_safe_speed, max_eq_left]
    exact le_trans (min_le_left _ _) h.le
  · rw [adjust_tempo_safe_speed, min_eq_left h2, max_eq_right h1]

/-- C10 witness: a target of 10x (for instance from a tempo limit above 4)
is clamped to 4x. -/
theorem c10_encoder_clamp_witness : adjust_tempo_safe_speed 10 = 4 :=
  (c10_encoder_clamp 10).2.2.1 (by norm_num)

/-! ## Overflow Shifter — `SubToAudio._shifter` and the shift policies
(src/processors/sub2audio.py lines 591-824 and `_parse_shift_limit`
lines 986-1006) -/

/-- `SubToAudio._parse_shift_limit` on an integer input: milliseconds,
clamped non-negative.  (The string branches parse a seconds or
milliseconds suffix and likewise return `max(0, value_ms)`.) -/
def parse_shift_limit_int (limit : ℤ) : Option ℚ :=
  some (max 0 (limit : ℚ))

/-- The shift cap computed identically by all three shift policies:
`min(overflow, limit) if limit is not None else overflow`. -/
def capped_overflow (limit : Option ℚ) (overflow : ℚ) : ℚ :=
  match limit with
  | some l => min overflow l
  | none => overflow

/-- `SubToAudio._right_shift`: walk forward, first applying the running
`total_shift_applied` to the entry, then adding the entry's own capped
overflow to the running shift for all subsequent entries. -/
def right_shift_go (limit : Option ℚ) : List SegEntry → ℚ → List SegEntry
  | [], _ => []
  | e :: rest, total_shift_applied =>
    let e' := if 0 < total_shift_applied then
        { e with start_time := e.start_time + total_shift_applied,
                 end_time := e.end_time + total_shift_applied }
      else e
    let sub_time := max 1 e'.sub_time
    let overflow := e'.audio_length - sub_time
    if overflow ≤ 0 then e' :: right_shift_go limit rest total_shift_applied
    else
      let actual_shift := capped_overflow limit overflow
      e' :: right_shift_go limit rest (total_shift_applied + actual_shift)

/-- `SubToAudio._right_shift` entry point (running shift starts at 0). -/
def right_shift (data : List SegEntry) (limit : Option ℚ) : List SegEntry :=
  right_shift_go limit data 0

/-- The inner loop of `SubToAudio._left_shift`: walk the preceding entries
backwards (`prevs` is `data[:i]` reversed), stealing idle slot time
(`max(1, sub_time) - audio_length`) until the needed shift is covered;
returns the total `shift_achieved`. -/
def steal_loop : List SegEntry → ℚ → ℚ
  | [], _ => 0
  | p :: rest, shift_needed =>
    let prev_sub_time := max 1 p.sub_time
    let space_available := prev_sub_time - p.audio_length
    if space_available ≤ 0 then steal_loop rest shift_needed
    else
      let steal_amount := min shift_needed space_available
      if shift_needed - steal_amount ≤ 0 then steal_amount
      else steal_amount + steal_loop rest (shift_needed - steal_amount)

/-- One iteration of the outer `_left_shift` loop, processing entry `i`:
if the entry overflows its slot, steal up to `min(overflow, limit)` from
preceding idle time and move the entry left by the achieved amount; raise
when more than 10 ms of the wanted shift remains unachieved and overlap is
not allowed. -/
def left_shift_entry (limit : Option ℚ) (allow_overlap : Bool) (data : List SegEntry)
    (i : ℕ) : Except String (List SegEntry) :=
  match data[i]? with
  | none => Except.ok data
  | some e =>
    let sub_time := max 1 e.sub_time
    let overflow := e.audio_length - sub_time
    if overflow ≤ 0 then Except.ok data
    else
      let max_shift := capped_overflow limit overflow
      let shift_achieved := steal_loop (data.take i).reverse max_shift
      let shifted := data.set i
        { e with start_time := e.start_time - shift_achieved,
                 end_time := e.end_time - shift_achieved }
      if 10 < max_shift - shift_achieved ∧ allow_overlap = false then
        Except.error "cannot resolve overflow with left shift without overlap"
      else Except.ok shifted

/-- The outer `_left_shift` loop: `for i in reversed(range(num_entries))`,
so the counter `k` processes indices `k-1, k-2, ..., 0`. -/
def left_shift_go (limit : Option ℚ) (allow_overlap : Bool) :
    ℕ → List SegEntry → Except String (List SegEntry)
  | 0, data => Except.ok data
  | k + 1, data =>
    match left_shift_entry limit allow_overlap data k with
    | Except.error msg => Except.error msg
    | Except.ok data' => left_shift_go limit allow_overlap k data'

/-- `SubToAudio._left_shift`. -/
def left_shift (data : List SegEntry) (limit : Option ℚ) (allow_overlap : Bool) :
    Except String (List SegEntry) :=
  left_shift_go limit allow_overlap data.length data

/-- One iteration of `SubToAudio._interpose_shift` for entry `e`, where
`prev` is the (already processed) preceding entry: steal up to half the
needed shift from the preceding idle time and move the entry left by that
amount; the push-forward remainder is only logged, never propagated, and
raises when more than 10 ms remains and overlap is not allowed. -/
def interpose_shift_entry (limit : Option ℚ) (allow_overlap : Bool)
    (prev : Option SegEntry) (e : SegEntry) : Except String SegEntry :=
  let sub_time := max 1 e.sub_time
  let overflow := e.audio_length - sub_time
  if overflow ≤ 0 then Except.ok e
  else
    let max_shift := capped_overflow limit overflow
    let prev_available := match prev with
      | some p => max 0 (max 1 p.sub_time - p.audio_length)
      | none => 0
    let take_from_prev := min (max_shift / 2) prev_available
    let e' := if 0 < take_from_prev then
        { e with start_time := e.start_time - take_from_prev,
                 end_time := e.end_time - take_from_prev }
      else e
    if 10 < max_shift - take_from_prev ∧ allow_overlap = false then
      Except.error "cannot resolve overflow with interpose shift without overlap"
    else Except.ok e'

/-- The forward loop of `_interpose_shift`. -/
def interpose_shift_go (limit : Option ℚ) (allow_overlap : Bool) :
    Option SegEntry → List SegEntry → Except String (List SegEntry)
  | _, [] => Except.ok []
  | prev, e :: rest =>
    match interpose_shift_entry limit allow_overlap prev e with
    | Except.error msg => Except.error msg
    | Except.ok e' =>
      match interpose_shift_go limit allow_overlap (some e') rest with
      | Except.error msg => Except.error msg
      | Except.ok rest' => Except.ok (e' :: rest')

/-- `SubToAudio._interpose_shift`. -/
def interpose_shift (data : List SegEntry) (limit : Option ℚ) (allow_overlap : Bool) :
    Except String (List SegEntry) :=
  interpose_shift_go limit allow_overlap none data

/-- The five shift policies of `SubToAudio._shifter`. -/
inductive ShiftMode where
  | right : ShiftMode
  | left : ShiftMode
  | interpose : ShiftMode
  | left_overlap : ShiftMode
  | interpose_overlap : ShiftMode
deriving DecidableEq

/-- `SubToAudio._shifter` after the limit has been parsed: dispatch to the
selected policy (the `*-overlap` variants pass `allow_overlap=True`). -/
def shifter (data : List SegEntry) (mode : ShiftMode) (limit_ms : Option ℚ) :
    Except String (List SegEntry) :=
  match mode with
  | .right => Except.ok (right_shift data limit_ms)
  | .left => left_shift data limit_ms false
  | .left_overlap => left_shift data limit_ms true
  | .interpose => interpose_shift data limit_ms false
  | .interpose_overlap => interpose_shift data limit_ms true

/-- Input of the C2 counterexample: two entries overflowing their 1000 ms
slots by 300 ms each, followed by a third entry. -/
def c2_sample_data : List SegEntry :=
  [⟨0, 1000, 1000, 1300⟩, ⟨1000, 2000, 1000, 1300⟩, ⟨2000, 3000, 1000, 1000⟩]

/-- C2 counterexample: under the right policy with parsed shift limit
100 ms, the third entry's start time moves from 2000 to 2200 — a change of
200 ms, exceeding the 100 ms limit — because the running right shift
accumulates each overflowing entry's individually capped shift. -/
theorem c2_counterexample :
    shifter c2_sample_data ShiftMode.right (parse_shift_limit_int 100) =
      Except.ok [⟨0, 1000, 1000, 1300⟩, ⟨1100, 2100, 1000, 1300⟩, ⟨2200, 3200, 1000, 1000⟩] ∧
    ¬ |(2200 : ℚ) - 2000| ≤ 100 := by
  constructor
  · have h : right_shift c2_sample_data (parse_shift_limit_int 100) =
        [⟨0, 1000, 1000, 1300⟩, ⟨1100, 2100, 1000, 1300⟩, ⟨2200, 3200, 1000, 1000⟩] := by
      norm_num [right_shift, right_shift_go, c2_sample_data, parse_shift_limit_int,
        capped_overflow, min_def, max_def]
    show Except.ok (right_shift c2_sample_data (parse_shift_limit_int 100)) = _
    rw [h]
  · norm_num

theorem steal_loop_bounds (prevs : List SegEntry) :
    ∀ (shift_needed : ℚ), 0 ≤ shift_needed →
      0 ≤ steal_loop prevs shift_needed ∧ steal_loop prevs shift_needed ≤ shift_needed := by
  induction prevs with
  | nil =>
    intro need h
    exact ⟨le_refl 0, h⟩
  | cons p rest ih =>
    intro need h
    simp only [steal_loop]
    by_cases hsp : max 1 p.sub_time - p.audio_length ≤ 0
    · rw [if_pos hsp]
      exact ih need h
    · rw [if_neg hsp]
      have hsp' : 0 < max 1 p.sub_time - p.audio_length := lt_of_not_le hsp
      set steal := min need (max 1 p.sub_time - p.audio_length) with hsteal_def
      have hsteal_nonneg : 0 ≤ steal := le_min h hsp'.le
      have hsteal_le : steal ≤ need := min_le_left _ _
      by_cases hdone : need - steal ≤ 0
      · rw [if_pos hdone]
        exact ⟨hsteal_nonneg, hsteal_le⟩
      · rw [if_neg hdone]
        have hrec := ih (need - steal) (by linarith [lt_of_not_le hdone])
        exact ⟨by linarith [hrec.1], by linarith [hrec.2]⟩

theorem capped_overflow_le (lmax overflow : ℚ) :
    capped_overflow (some lmax) overflow ≤ lmax :=
  min_le_right _ _

theorem capped_overflow_nonneg (lmax overflow : ℚ) (h1 : 0 ≤ overflow) (h2 : 0 ≤ lmax) :
    0 ≤ capped_overflow (some lmax) overflow :=
  le_min h1 h2

/-- How one entry of a left shift run relates to its pre-shift original:
start time moved by at most `lmax`, slot and audio length untouched. -/
def shift_rel (lmax : ℚ) (e' e : SegEntry) : Prop :=
  |e'.start_time - e.start_time| ≤ lmax ∧ e'.sub_time = e.sub_time ∧
    e'.audio_length = e.audio_length

/-- `shift_rel` lifted to optional entries (matching positions of two
lists read through `getElem?`). -/
def opt_shift_rel (lmax : ℚ) : Option SegEntry → Option SegEntry → Prop
  | some e', some e => shift_rel lmax e' e
  | none, none => True
  | _, _ => False

theorem opt_shift_rel_refl (lmax : ℚ) (hl : 0 ≤ lmax) (o : Option SegEntry) :
    opt_shift_rel lmax o o := by
  cases o with
  | none => trivial
  | some e => exact ⟨by simpa using hl, rfl, rfl⟩

theorem left_shift_entry_spec (lmax : ℚ) (hl : 0 ≤ lmax) (ao : Bool)
    (data : List SegEntry) (i : ℕ) (res : List SegEntry)
    (hok : left_shift_entry (some lmax) ao data i = Except.ok res) :
    (∀ (j : ℕ), j ≠ i → res[j]? = data[j]?) ∧ (∀ (j : ℕ), opt_shift_rel lmax res[j]? data[j]?) := by
  rcases hdi : data[i]? with _ | e
  · simp only [left_shift_entry, hdi] at hok
    cases hok
    exact ⟨fun j _ => rfl, fun j => opt_shift_rel_refl lmax hl _⟩
  · simp only [left_shift_entry, hdi] at hok
    by_cases hov : e.audio_length - max 1 e.sub_time ≤ 0
    · rw [if_pos hov] at hok
      cases hok
      exact ⟨fun j _ => rfl, fun j => opt_shift_rel_refl lmax hl _⟩
    · rw [if_neg hov] at hok
      set m := capped_overflow (some lmax) (e.audio_length - max 1 e.sub_time) with hm
      set a := steal_loop (data.take i).reverse m with ha
      have hm_nonneg : 0 ≤ m :=
        capped_overflow_nonneg lmax _ (le_of_lt (lt_of_not_le hov)) hl
      have hbounds := steal_loop_bounds (data.take i).reverse m hm_nonneg
      have ha_le : a ≤ lmax := le_trans hbounds.2 (capped_overflow_le lmax _)
      split at hok
      · cases hok
      · cases hok
        constructor
        · intro j hj
          rw [List.getElem?_set, if_neg (fun h => hj h.symm)]
        · intro j
          by_cases hj : j = i
          · subst hj
            have hlen : j < data.length := (List.getElem?_eq_some.mp hdi).1
            rw [List.getElem?_set, if_pos rfl, if_pos hlen, hdi]
            refine ⟨?_, rfl, rfl⟩
            have : e.start_time - a - e.start_time = -a := by ring
            rw [this, abs_neg, abs_of_nonneg hbounds.1]
            exact ha_le
          · rw [List.getElem?_set, if_neg (fun h => hj h.symm)]
            exact opt_shift_rel_refl lmax hl _

theorem left_shift_go_spec (lmax : ℚ) (hl : 0 ≤ lmax) (ao : Bool) :
    ∀ (k : ℕ) (data res : List SegEntry),
      left_shift_go (some lmax) ao k data = Except.ok res →
      (∀ (j : ℕ), k ≤ j → res[j]? = data[j]?) ∧ (∀ (j : ℕ), opt_shift_rel lmax res[j]? data[j]?)
  | 0, data, res, hok => by
    cases hok
    exact ⟨fun j _ => rfl, fun j => opt_shift_rel_refl lmax hl _⟩
  | k + 1, data, res, hok => by
    rcases hentry : left_shift_entry (some lmax) ao data k with msg | data'
    · rw [left_shift_go, hentry] at hok
      cases hok
    · rw [left_shift_go, hentry] at hok
      obtain ⟨hrec_eq, hrec_rel⟩ := left_shift_go_spec lmax hl ao k data' res hok
      obtain ⟨hent_eq, hent_rel⟩ := left_shift_entry_spec lmax hl ao data k data' hentry
      constructor
      · intro j hj
        rw [hrec_eq j (by omega), hent_eq j (by omega)]
      · intro j
        by_cases hjk : j = k
        · subst hjk
          rw [hrec_eq j le_rfl]
          exact hent_rel j
        · have h1 := hrec_rel j
          rw [hent_eq j hjk] at h1
          exact h1

theorem forall₂_of_opt_shift_rel (lmax : ℚ) :
    ∀ (l1 l2 : List SegEntry), (∀ (j : ℕ), opt_shift_rel lmax l1[j]? l2[j]?) →
      List.Forall₂ (fun e' e => |e'.start_time - e.start_time| ≤ lmax) l1 l2
  | [], [], _ => List.Forall₂.nil
  | [], _ :: _, h => by
    have h0 := h 0
    simp only [List.getElem?_nil, List.getElem?_cons_zero, opt_shift_rel] at h0
  | _ :: _, [], h => by
    have h0 := h 0
    simp only [List.getElem?_nil, List.getElem?_cons_zero, opt_shift_rel] at h0
  | e' :: l1, e :: l2, h => by
    have h0 := h 0
    simp only [List.getElem?_cons_zero, opt_shift_rel, shift_rel] at h0
    refine List.Forall₂.cons h0.1 (forall₂_of_opt_shift_rel lmax l1 l2 (fun j => ?_))
    have hj := h (j + 1)
    simpa only [List.getElem?_cons_succ] using hj

/-- C2 amended: under the left shift policies (both the strict and the
overlap-allowing variant), whenever the shifter completes, the absolute
change applied to each individual entry's start time is bounded by the
parsed shift limit.  Under the right policy the running shift accumulates
the individually capped shifts of all earlier overflowing entries, so the
change applied to a later entry can exceed the limit (see the
counterexample). -/
theorem c2_left_shift_bound_amended (data : List SegEntry) (n : ℤ) (allow_overlap : Bool)
    (res : List SegEntry)
    (hok : left_shift data (parse_shift_limit_int n) allow_overlap = Except.ok res) :
    List.Forall₂ (fun e' e => |e'.start_time - e.start_time| ≤ max 0 (n : ℚ)) res data := by
  have hl : (0 : ℚ) ≤ max 0 (n : ℚ) := le_max_left _ _
  rw [left_shift, parse_shift_limit_int] at hok
  obtain ⟨-, hrel⟩ :=
    left_shift_go_spec (max 0 (n : ℚ)) hl allow_overlap data.length data res hok
  exact forall₂_of_opt_shift_rel _ res data hrel

/-- Input of the C2 witness: the second entry overflows its slot by
500 ms and reclaims 300 ms (the parsed limit) of idle time from the
first. -/
def c2_left_sample_data : List SegEntry :=
  [⟨0, 1000, 1000, 400⟩, ⟨1000, 2000, 1000, 1500⟩]

/-- C2 witness: the amended bound applied to a concrete successful left
shift run with parsed limit 300 ms. -/
theorem c2_left_shift_bound_amended_witness :
    List.Forall₂ (fun (e' e : SegEntry) => |e'.start_time - e.start_time| ≤ max 0 ((300 : ℤ) : ℚ))
      ([⟨0, 1000, 1000, 400⟩, ⟨700, 1700, 1000, 1500⟩] : List SegEntry) c2_left_sample_data :=
  c2_left_shift_bound_amended c2_left_sample_data 300 false
    [⟨0, 1000, 1000, 400⟩, ⟨700, 1700, 1000, 1500⟩]
    (by norm_num [left_shift, left_shift_go, left_shift_entry, steal_loop,
      parse_shift_limit_int, capped_overflow, c2_left_sample_data, min_def, max_def])

/-- The shortfall of one left-shift iteration, computable from the input
timeline alone (the steal loop reads only `sub_time` and `audio_length`,
which the shifter never modifies): `max_shift - shift_achieved` for entry
`i`, and 0 when the entry does not overflow. -/
def left_residual (limit : Option ℚ) (data : List SegEntry) (i : ℕ) : ℚ :=
  match data[i]? with
  | none => 0
  | some e =>
    let sub_time := max 1 e.sub_time
    let overflow := e.audio_length - sub_time
    if overflow ≤ 0 then 0
    else
      let max_shift := capped_overflow limit overflow
      max_shift - steal_loop (data.take i).reverse max_shift

/-- Agreement on the two fields the steal loop reads. -/
def timing_eq (a b : SegEntry) : Prop :=
  a.sub_time = b.sub_time ∧ a.audio_length = b.audio_length

theorem steal_loop_congr {l1 l2 : List SegEntry} (h : List.Forall₂ timing_eq l1 l2) :
    ∀ (need : ℚ), steal_loop l1 need = steal_loop l2 need := by
  induction h with
  | nil => intro need; rfl
  | @cons a b l1' l2' hab htail ih =>
    intro need
    simp only [steal_loop, hab.1, hab.2, ih]

theorem forall₂_timing_set (data : List SegEntry) (k : ℕ) (e e'' : SegEntry)
    (hk : data[k]? = some e) (ht : timing_eq e'' e) :
    List.Forall₂ timing_eq (data.set k e'') data := by
  rw [List.forall₂_iff_get]
  refine ⟨by simp, fun i h1 h2 => ?_⟩
  rw [List.get_eq_getElem, List.get_eq_getElem, List.getElem_set]
  split
  · rename_i hik
    subst hik
    have hkk : data[k] = e := by
      obtain ⟨hlen, hval⟩ := List.getElem?_eq_some.mp hk
      exact hval
    rw [hkk]
    exact ht
  · exact ⟨rfl, rfl⟩

theorem left_residual_set (limit : Option ℚ) (data : List SegEntry) (k : ℕ) (e e'' : SegEntry)
    (hk : data[k]? = some e) (ht : timing_eq e'' e) :
    ∀ (i : ℕ), left_residual limit (data.set k e'') i = left_residual limit data i := by
  intro i
  have hsteal : ∀ (need : ℚ),
      steal_loop ((data.set k e'').take i).reverse need = steal_loop (data.take i).reverse need :=
    steal_loop_congr (List.forall₂_reverse_iff.mpr
      (List.forall₂_take i (forall₂_timing_set data k e e'' hk ht)))
  by_cases hik : i = k
  · subst hik
    have hlen : i < data.length := (List.getElem?_eq_some.mp hk).1
    have hset : (data.set i e'')[i]? = some e'' := by
      rw [List.getElem?_set, if_pos rfl, if_pos hlen]
    simp only [left_residual, hset, hk, ht.1, ht.2, hsteal]
  · have hset : (data.set k e'')[i]? = data[i]? := by
      rw [List.getElem?_set, if_neg (fun h => hik h.symm)]
    simp only [left_residual, hset]
    rcases data[i]? with _ | ei
    · rfl
    · simp only [hsteal]

theorem left_shift_entry_overlap_ok (limit : Option ℚ) (data : List SegEntry) (i : ℕ) :
    ∃ res, left_shift_entry limit true data i = Except.ok res := by
  rcases hdi : data[i]? with _ | e
  · exact ⟨data, by simp only [left_shift_entry, hdi]⟩
  · simp only [left_shift_entry, hdi]
    by_cases hov : e.audio_length - max 1 e.sub_time ≤ 0
    · rw [if_pos hov]
      exact ⟨data, rfl⟩
    · rw [if_neg hov, if_neg (by rintro ⟨-, h⟩; cases h)]
      exact ⟨_, rfl⟩

theorem left_shift_overlap_isOk (data : List SegEntry) (limit : Option ℚ) :
    (left_shift data limit true).isOk = true := by
  rw [left_shift]
  generalize data.length = k
  induction k generalizing data with
  | zero => rfl
  | succ k ih =>
    obtain ⟨res, hres⟩ := left_shift_entry_overlap_ok limit data k
    have hgo : left_shift_go limit true (k + 1) data = left_shift_go limit true k res := by
      rw [left_shift_go, hres]
    rw [hgo]
    exact ih res

theorem left_shift_go_isOk_iff (limit : Option ℚ) :
    ∀ (k : ℕ) (data : List SegEntry),
      (left_shift_go limit false k data).isOk = true ↔
        ∀ (i : ℕ), i < k → left_residual limit data i ≤ 10
  | 0, data => by
    constructor
    · intro _ i hik
      exact absurd hik (Nat.not_lt_zero i)
    · intro _
      rfl
  | k + 1, data => by
    rcases hdi : data[k]? with _ | e
    · have hent : left_shift_entry limit false data k = Except.ok data := by
        simp only [left_shift_entry, hdi]
      have hres : left_residual limit data k = 0 := by
        simp only [left_residual, hdi]
      have hgo : left_shift_go limit false (k + 1) data = left_shift_go limit false k data := by
        rw [left_shift_go, hent]
      rw [hgo, left_shift_go_isOk_iff limit k data]
      constructor
      · intro h i hik
        rcases Nat.lt_succ_iff_lt_or_eq.mp hik with h' | h'
        · exact h i h'
        · subst h'
          rw [hres]
          norm_num
      · intro h i hik
        exact h i (Nat.lt_succ_of_lt hik)
    · by_cases hov : e.audio_length - max 1 e.sub_time ≤ 0
      · have hent : left_shift_entry limit false data k = Except.ok data := by
          simp only [left_shift_entry, hdi]
          rw [if_pos hov]
        have hres : left_residual limit data k = 0 := by
          simp only [left_residual, hdi]
          rw [if_pos hov]
        have hgo : left_shift_go limit false (k + 1) data = left_shift_go limit false k data := by
          rw [left_shift_go, hent]
        rw [hgo, left_shift_go_isOk_iff limit k data]
        constructor
        · intro h i hik
          rcases Nat.lt_succ_iff_lt_or_eq.mp hik with h' | h'
          · exact h i h'
          · subst h'
            rw [hres]
            norm_num
        · intro h i hik
          exact h i (Nat.lt_succ_of_lt hik)
      · set m := capped_overflow limit (e.audio_length - max 1 e.sub_time) with hm
        set a := steal_loop (data.take k).reverse m with ha
        have hres : left_residual limit data k = m - a := by
          simp only [left_residual, hdi]
          rw [if_neg hov]
        by_cases herr : 10 < m - a
        · have hent : left_shift_entry limit false data k =
              Except.error "cannot resolve overflow with left shift without overlap" := by
            simp only [left_shift_entry, hdi]
            rw [if_neg hov, if_pos ⟨herr, trivial⟩]
          have hgo : left_shift_go limit false (k + 1) data =
              Except.error "cannot resolve overflow with left shift without overlap" := by
            rw [left_shift_go, hent]
          rw [hgo]
          constructor
          · intro h
            exact Bool.noConfusion h
          · intro h
            exfalso
            have h10 := h k (Nat.lt_succ_self k)
            rw [hres] at h10
            linarith
        · have hent : left_shift_entry limit false data k =
              Except.ok (data.set k
                { e with start_time := e.start_time - a, end_time := e.end_time - a }) := by
            simp only [left_shift_entry, hdi]
            rw [if_neg hov, if_neg (by rintro ⟨h10, -⟩; exact herr h10)]
          have hgo : left_shift_go limit false (k + 1) data =
              left_shift_go limit false k
                (data.set k { e with start_time := e.start_time - a, end_time := e.end_time - a }) := by
            rw [left_shift_go, hent]
          rw [hgo,
            left_shift_go_isOk_iff limit k
              (data.set k { e with start_time := e.start_time - a, end_time := e.end_time - a })]
          have hinv := left_residual_set limit data k e
            { e with start_time := e.start_time - a, end_time := e.end_time - a } hdi ⟨rfl, rfl⟩
          constructor
          · intro h i hik
            rcases Nat.lt_succ_iff_lt_or_eq.mp hik with h' | h'
            · rw [← hinv i]
              exact h i h'
            · subst h'
              rw [hres]
              linarith [not_lt.mp herr]
          · intro h i hik
            rw [hinv i]
            exact h i (Nat.lt_succ_of_lt hik)

/-- Input of the C8 counterexample: the second entry overflows its slot by
5 ms and no idle time is reclaimable from the first entry. -/
def c8_sample_data : List SegEntry :=
  [⟨0, 100, 100, 100⟩, ⟨100, 200, 100, 105⟩]

/-- C8 counterexample: entry 2 needs a 5 ms shift, the preceding entry has
no idle time, so the shift is unresolved (`left_residual = 5 > 0`) — yet
the strict left shifter completes without raising, because the raise is
guarded by a 10 ms tolerance (`remaining_overflow > 10`).  The claim that
insufficient idle time always fails with ShiftUnresolvedError is false. -/
theorem c8_counterexample :
    left_residual none c8_sample_data 1 = 5 ∧
    left_shift c8_sample_data none false = Except.ok c8_sample_data := by
  constructor
  · norm_num [left_residual, c8_sample_data, steal_loop, capped_overflow, min_def, max_def]
  · norm_num [left_shift, left_shift_go, left_shift_entry, steal_loop, capped_overflow,
      c8_sample_data, min_def, max_def]

/-- C8 amended: the overlap-allowing left shift variant never raises, and
the strict left shift completes exactly when every entry's unreclaimed
shortfall (`max_shift - shift_achieved`) is within the 10 ms tolerance;
equivalently, it raises a RuntimeError exactly when some entry's shortfall
after reclaiming idle time exceeds 10 ms. -/
theorem c8_left_shift_amended (data : List SegEntry) (limit : Option ℚ) :
    (left_shift data limit true).isOk = true ∧
    ((left_shift data limit false).isOk = true ↔
      ∀ (i : ℕ), i < data.length → left_residual limit data i ≤ 10) := by
  refine ⟨left_shift_overlap_isOk data limit, ?_⟩
  rw [left_shift]
  exact left_shift_go_isOk_iff limit data.length data

/-! ## Audio Track Assembler — `SubToAudio._build_final_audio`
(src/processors/sub2audio.py lines 488-588)

The pydub base track and overlays are modelled by the list of performed
overlay placements (position and overlaid length) plus the running
`last_segment_end_time`; the audio file of each entry is assumed present
with pydub length equal to the measured `audio_length` (the file-missing
and load-failure branches are filesystem externalities). -/

/-- One performed overlay: position on the base track and overlaid length
(after any truncation at the end of the base track). -/
structure Placement where
  position : ℚ
  length : ℚ
deriving DecidableEq

/-- The assembler state: overlays done so far and the end time of the
previously placed segment. -/
structure BuildState where
  placements : List Placement
  last_segment_end_time : ℚ
deriving DecidableEq

/-- One iteration of the `_build_final_audio` loop: skip non-positive
lengths; on overlap beyond the 10 ms tolerance skip the entry under
strict timing (and proceed with only a warning otherwise); clamp the start
to 0; truncate a segment reaching past the end of the base track, skipping
it entirely if it starts at or beyond the end; otherwise overlay and
advance `last_segment_end_time`. -/
def build_step (strict_timing : Bool) (base_len : ℚ) (st : BuildState) (e : SegEntry) :
    BuildState :=
  if e.audio_length ≤ 0 then st
  else if 10 < st.last_segment_end_time - e.start_time ∧ strict_timing = true then st
  else
    let start_position := max 0 e.start_time
    let segment_length := e.audio_length
    if base_len < start_position + segment_length then
      let allowed_length := base_len - start_position
      if allowed_length ≤ 0 then st
      else ⟨st.placements ++ [⟨start_position, allowed_length⟩], start_position + allowed_length⟩
    else
      if 0 < segment_length then
        ⟨st.placements ++ [⟨start_position, segment_length⟩], start_position + segment_length⟩
      else st

/-- The base track length of `_build_final_audio`:
`max(start_time + audio_length) + 1000` ms buffer, with the sum of audio
lengths as fallback when the maximum cannot be computed. -/
def total_duration_ms (data : List SegEntry) : ℚ :=
  let max_req_time :=
    match (data.map (fun e => e.start_time + e.audio_length)).max? with
    | some m => m
    | none => (data.map (fun e => e.audio_length)).sum
  max_req_time + 1000

/-- The overlay loop of `_build_final_audio` over a base track of length
`base_len`, starting from no placements and `last_segment_end_time = 0`. -/
def build_placements (strict_timing : Bool) (base_len : ℚ) (data : List SegEntry) :
    BuildState :=
  data.foldl (build_step strict_timing base_len) ⟨[], 0⟩

/-- `SubToAudio._build_final_audio`: empty data yields 1 s of silence;
otherwise the overlay loop runs over the sized base track.  Returns the
placements together with the base track length — a track is always
produced. -/
def build_final_audio (data : List SegEntry) (strict_timing : Bool) : BuildState × ℚ :=
  if data = [] then (⟨[], 0⟩, 1000)
  else
    let base_len := total_duration_ms data
    (build_placements strict_timing base_len data, base_len)

theorem build_step_strict_skip (base_len : ℚ) (st : BuildState) (e : SegEntry)
    (h : 10 < st.last_segment_end_time - e.start_time) :
    build_step true base_len st e = st := by
  rw [build_step]
  by_cases hlen : e.audio_length ≤ 0
  · rw [if_pos hlen]
  · rw [if_neg hlen, if_pos ⟨h, rfl⟩]

/-- C6: in final audio assembly, for an entry starting more than 10 ms
before the end of the previously placed segment, under strict timing only
that entry is skipped — the assembly of the surrounding entries (and hence
the produced track) is exactly as if the entry were absent — while under
lenient timing the entry is overlaid anyway (given it is otherwise
placeable: positive length and not reaching past the base track). -/
theorem c6_overlap_handling (base_len : ℚ) (l1 l2 : List SegEntry) (e : SegEntry)
    (hov : 10 < (build_placements true base_len l1).last_segment_end_time - e.start_time) :
    build_placements true base_len (l1 ++ e :: l2) = build_placements true base_len (l1 ++ l2) ∧
    (∀ (st : BuildState), 10 < st.last_segment_end_time - e.start_time →
      0 < e.audio_length → ¬ base_len < max 0 e.start_time + e.audio_length →
      build_step false base_len st e =
        ⟨st.placements ++ [⟨max 0 e.start_time, e.audio_length⟩],
         max 0 e.start_time + e.audio_length⟩) := by
  constructor
  · have hskip := build_step_strict_skip base_len (build_placements true base_len l1) e hov
    simp only [build_placements] at hskip
    rw [build_placements, build_placements, List.foldl_append, List.foldl_append,
      List.foldl_cons, hskip]
  · intro st hst hlen hfit
    rw [build_step, if_neg (not_le.mpr hlen),
      if_neg (by rintro ⟨-, hb⟩; cases hb)]
    simp only
    rw [if_neg hfit, if_pos hlen]

/-- C6 witness: a first entry placed at 0-100 ms, a second entry starting
at 50 ms (overlap 50 ms beyond the tolerance): skipped under strict
timing, overlaid at 50 ms under lenient timing. -/
theorem c6_overlap_handling_witness :
    build_placements true 5000 ([⟨0, 100, 100, 100⟩, ⟨50, 150, 100, 60⟩] : List SegEntry) =
      build_placements true 5000 ([⟨0, 100, 100, 100⟩] : List SegEntry) ∧
    (∀ (st : BuildState), 10 < st.last_segment_end_time - (50 : ℚ) →
      (0 : ℚ) < 60 → ¬ (5000 : ℚ) < max 0 50 + 60 →
      build_step false 5000 st ⟨50, 150, 100, 60⟩ =
        ⟨st.placements ++ [⟨max 0 50, 60⟩], max 0 50 + 60⟩) := by
  have h := c6_overlap_handling 5000 [⟨0, 100, 100, 100⟩] [] ⟨50, 150, 100, 60⟩
    (by norm_num [build_placements, build_step, min_def, max_def])
  exact h

/-! ## Timeline Model — `SubToAudio._extract_data_srt`,
`_convert_time_to_intmil`, `_validate_inputs` (src/processors/sub2audio.py
lines 827-965) and `SRTParser.parse_entry` (src/processors/srt_parser.py
lines 40-68)

A `RawMatch` is one hit of the SRT entry regex of `_extract_data_srt`,
with its two timestamps already converted by `_convert_time_to_intmil`
(the regex admits only `dd:dd:dd,ddd` timestamps, so the conversion — and
hence the skip-on-invalid-time branch — can never fail on a match). -/

/-- `SubToAudio._convert_time_to_intmil`: HH:MM:SS,mmm to integer
milliseconds. -/
def convert_time_to_intmil (h m s ms : ℕ) : ℤ :=
  ((h * 3600 + m * 60 + s) * 1000 + ms : ℕ)

/-- One regex match of `_extract_data_srt`, times in milliseconds. -/
structure RawMatch where
  entry_number : ℕ
  start_time : ℤ
  end_time : ℤ
  text : String
deriving DecidableEq

/-- One parsed subtitle entry produced by `_extract_data_srt` (the
`audio_name` field, `f"{entry_number}_audio.wav"`, is elided). -/
structure SrtEntry where
  entry_number : ℕ
  start_time : ℤ
  end_time : ℤ
  text : String
  sub_time : ℤ
deriving DecidableEq

/-- The per-match body of the `_extract_data_srt` loop: coerce a
non-positive duration to 1 ms (with a warning), then compute `sub_time` as
the distance to the next match's start (or the own — coerced — duration
for the last match), floored at 1 ms. -/
def extract_one (m : RawMatch) (next_start_time : Option ℤ) : SrtEntry :=
  let end_t := if m.end_time ≤ m.start_time then m.start_time + 1 else m.end_time
  let raw_sub :=
    match next_start_time with
    | some ns => ns - m.start_time
    | none => end_t - m.start_time
  { entry_number := m.entry_number, start_time := m.start_time, end_time := end_t,
    text := m.text, sub_time := max 1 raw_sub }

/-- `SubToAudio._extract_data_srt` over the list of regex matches. -/
def extract_data_srt : List RawMatch → List SrtEntry
  | [] => []
  | m :: rest =>
    extract_one m (rest.head?.map RawMatch.start_time) :: extract_data_srt rest

theorem extract_data_srt_length :
    ∀ (ms : List RawMatch), (extract_data_srt ms).length = ms.length
  | [] => rfl
  | _ :: rest => by
    simp only [extract_data_srt, List.length_cons, extract_data_srt_length rest]

theorem extract_data_srt_getElem :
    ∀ (ms : List RawMatch) (i : ℕ),
      (extract_data_srt ms)[i]? =
        (ms[i]?).map (fun m => extract_one m ((ms[i+1]?).map RawMatch.start_time))
  | [], i => by simp [extract_data_srt]
  | m :: rest, 0 => by
    simp only [extract_data_srt, List.getElem?_cons_zero, List.getElem?_cons_succ,
      List.head?_eq_getElem?]
    rfl
  | m :: rest, i + 1 => by
    simp only [extract_data_srt, List.getElem?_cons_succ]
    exact extract_data_srt_getElem rest i

theorem extract_one_last_sub (m : RawMatch) :
    (extract_one m none).sub_time =
      (extract_one m none).end_time - (extract_one m none).start_time := by
  simp only [extract_one]
  by_cases h : m.end_time ≤ m.start_time
  · rw [if_pos h, max_eq_right (by omega)]
  · rw [if_neg h, max_eq_right (by omega)]

/-- C7 counterexample: two entries both starting at 0 ms (the parser
accepts this — it only warns about overlaps).  The first entry's slot is
`max(1, 0 - 0) = 1`, not the next-start difference `0`, so the claim that
the slot always equals the start-time difference is false. -/
theorem c7_counterexample :
    ((extract_data_srt [⟨1, 0, 1000, "a"⟩, ⟨2, 0, 2000, "b"⟩])[0]?).map SrtEntry.sub_time
        = some 1 ∧ (1 : ℤ) ≠ 0 - 0 := by
  constructor
  · norm_num [extract_data_srt, extract_one, max_def]
  · decide

/-- C7 amended: every entry's slot equals `max(1, next.start - this.start)`
for every entry but the last — hence equals the start difference whenever
that difference is at least 1 ms, but is clamped to 1 ms when the next
entry starts at or before this one — equals the coerced `end - start` for
the last entry, and is always at least 1 ms. -/
theorem c7_slots_amended (ms : List RawMatch) (i : ℕ) :
    (∀ (m1 m2 : RawMatch), ms[i]? = some m1 → ms[i+1]? = some m2 →
      ((extract_data_srt ms)[i]?).map SrtEntry.sub_time
          = some (max 1 (m2.start_time - m1.start_time)) ∧
      (1 ≤ m2.start_time - m1.start_time →
        ((extract_data_srt ms)[i]?).map SrtEntry.sub_time
            = some (m2.start_time - m1.start_time))) ∧
    (∀ (m1 : RawMatch), ms[i]? = some m1 → ms[i+1]? = none →
      (extract_data_srt ms)[i]? = some (extract_one m1 none) ∧
      (extract_one m1 none).sub_time =
        (extract_one m1 none).end_time - (extract_one m1 none).start_time) ∧
    (∀ e ∈ extract_data_srt ms, 1 ≤ e.sub_time) := by
  refine ⟨fun m1 m2 h1 h2 => ?_, fun m1 h1 h2 => ?_, ?_⟩
  · have hmap : ((extract_data_srt ms)[i]?).map SrtEntry.sub_time
        = some (max 1 (m2.start_time - m1.start_time)) := by
      rw [extract_data_srt_getElem ms i, h1, h2]
      simp [extract_one]
    exact ⟨hmap, fun hge => by rw [hmap, max_eq_right hge]⟩
  · constructor
    · rw [extract_data_srt_getElem ms i, h1, h2]
      rfl
    · exact extract_one_last_sub m1
  · intro e he
    induction ms with
    | nil => simp [extract_data_srt] at he
    | cons m rest ih =>
      rw [extract_data_srt] at he
      rcases List.mem_cons.mp he with h | h
      · rw [h]
        exact le_max_left _ _
      · exact ih h

/-- C7 witness: the amended slot equation applied to a two-entry timeline
with starts 0 ms and 1500 ms. -/
theorem c7_slots_amended_witness :
    ((extract_data_srt [⟨1, 0, 1000, "a"⟩, ⟨2, 1500, 2800, "b"⟩])[0]?).map SrtEntry.sub_time
        = some (1500 - 0) :=
  (((c7_slots_amended [⟨1, 0, 1000, "a"⟩, ⟨2, 1500, 2800, "b"⟩] 0).1
    ⟨1, 0, 1000, "a"⟩ ⟨2, 1500, 2800, "b"⟩ rfl rfl).2 (by decide))

/-! ## Input validation and the standalone SRT parser -/

/-- Helper for the `tempo_limit < 0.5` check of `_validate_inputs`. -/
def tempo_limit_too_small (tempo_limit : Option ℚ) : Bool :=
  match tempo_limit with
  | some l => decide (l < 1/2)
  | none => false

/-- `SubToAudio._validate_inputs`: raises on empty data, an unknown
`tempo_mode`, a missing `tempo_speed` in `all` mode, a `tempo_limit`
below 0.5 in the overflow/precise modes, or an unknown `shift_mode`. -/
def validate_inputs (data : List SrtEntry) (tempo_mode : Option String)
    (tempo_speed : Option ℚ) (tempo_limit : Option ℚ) (shift_mode : Option String) :
    Except String Unit :=
  if data = [] then Except.error "No subtitle data provided."
  else if tempo_mode ∉ ([none, some "all", some "overflow", some "precise"] :
      List (Option String)) then
    Except.error "Invalid tempo_mode"
  else if tempo_mode = some "all" ∧ tempo_speed = none then
    Except.error "tempo_speed must be provided when tempo_mode is all."
  else if (tempo_mode = some "overflow" ∨ tempo_mode = some "precise") ∧
      tempo_limit_too_small tempo_limit = true then
    Except.error "tempo_limit cannot be less than 0.5."
  else if shift_mode ∉ ([none, some "right", some "left", some "interpose",
      some "left-overlap", some "interpose-overlap"] : List (Option String)) then
    Except.error "Invalid shift_mode"
  else Except.ok ()

/-- One parsed entry of the standalone `SRTParser` (video pipeline side). -/
structure ParsedEntry where
  start_time : ℚ
  end_time : ℚ
  duration : ℚ
  text : String
deriving DecidableEq

/-- The core of `SRTParser.parse_entry` after its two timestamps have been
parsed by `parse_time` (seconds, as floats): an entry whose start is not
before its end is rejected — `parse_entry` returns `None` and the entry is
dropped from the parse, with an error logged (the surrounding regex and
line-structure checks, which also return `None`, are elided). -/
def parse_entry_core (start_s end_s : ℚ) (text : String) : Option ParsedEntry :=
  if start_s ≥ end_s then none
  else some { start_time := start_s, end_time := end_s, duration := end_s - start_s,
              text := text }

/-- The collection loop of `SRTParser.parse`: invalid entries are skipped
(an error string is recorded), valid entries are kept in order. -/
def srt_parse_entries (raws : List (ℚ × ℚ × String)) : List ParsedEntry :=
  raws.filterMap (fun r => parse_entry_core r.1 r.2.1 r.2.2)

/-- C9 counterexample: an entry whose end equals its start is not kept by
the standalone SRTParser — `parse_entry` returns `None` and the entry is
dropped from the parse — contradicting the claim that such an entry is
kept and coerced to a 1 ms duration. -/
theorem c9_counterexample :
    parse_entry_core 5 5 "x" = none ∧ srt_parse_entries [(5, 5, "x")] = [] := by
  constructor
  · norm_num [parse_entry_core]
  · norm_num [srt_parse_entries, parse_entry_core]

/-- C9 amended: in the sub2audio pipeline, building a timeline from empty
data raises (`_validate_inputs`), and `_extract_data_srt` keeps an entry
whose end is not after its start, coercing it to a 1 ms minimum duration
with a warning (no entry is dropped).  The standalone `SRTParser`, by
contrast, drops such an entry (`parse_entry` returns `None`) — still not a
hard failure of the whole parse, which continues with the other
entries. -/
theorem c9_malformed_entries_amended (tempo_mode : Option String) (tempo_speed : Option ℚ)
    (tempo_limit : Option ℚ) (shift_mode : Option String)
    (m : RawMatch) (next_start_time : Option ℤ) (hm : m.end_time ≤ m.start_time)
    (ms : List RawMatch) (s e : ℚ) (t : String) (hse : e ≤ s) :
    validate_inputs [] tempo_mode tempo_speed tempo_limit shift_mode =
      Except.error "No subtitle data provided." ∧
    (extract_data_srt ms).length = ms.length ∧
    (extract_one m next_start_time).end_time = m.start_time + 1 ∧
    (extract_one m next_start_time).end_time - (extract_one m next_start_time).start_time = 1 ∧
    parse_entry_core s e t = none := by
  refine ⟨?_, extract_data_srt_length ms, ?_, ?_, ?_⟩
  · rw [validate_inputs, if_pos rfl]
  · simp only [extract_one, if_pos hm]
  · simp only [extract_one, if_pos hm]
    ring
  · rw [parse_entry_core, if_pos (ge_iff_le.mpr hse)]

/-- C9 witness: the amended theorem applied to a zero-duration 100-100 ms
raw match and a zero-duration SRTParser entry. -/
theorem c9_malformed_entries_amended_witness :
    validate_inputs [] none none none none = Except.error "No subtitle data provided." ∧
    (extract_data_srt ([] : List RawMatch)).length = ([] : List RawMatch).length ∧
    (extract_one ⟨1, 100, 100, "x"⟩ none).end_time = (100 : ℤ) + 1 ∧
    (extract_one ⟨1, 100, 100, "x"⟩ none).end_time -
      (extract_one ⟨1, 100, 100, "x"⟩ none).start_time = 1 ∧
    parse_entry_core 5 5 "y" = none :=
  c9_malformed_entries_amended none none none none ⟨1, 100, 100, "x"⟩ none (by decide)
    [] 5 5 "y" (by norm_num)

end VCC
